import Mathlib

/-!
Shallow embedding of the zone-formation and scoring engine of
`src/zone_analyzer.py` (class `ZoneAnalyzer`).

Tabular data (pandas `DataFrame` rows) is embedded as Lean lists of
structures; float-valued columns become `ℚ` (exact arithmetic), distances
are parametrized over a linearly ordered type `D` so that assignment logic
can be stated both for the real-valued haversine metric and evaluated on
concrete rational inputs.  Fallible or empty-result code paths return `[]`
(the engine never raises).  `utils.py` and `config.py` are not part of the
sources; the normalization primitive `normalize_score` is modelled from the
spec (§4.6) and the two configuration constants (`MIN_HOUSEHOLDS`,
`TARGET_CONVERSION_RATE`) are taken as parameters.
-/

namespace ZA

/-- One row of the commune-level input table (schema of §6 of the spec,
columns as consumed by `zone_analyzer.py`). -/
structure Commune where
  code_commune : String
  nom_commune : String
  latitude : ℚ
  longitude : ℚ
  population_totale : ℚ
  nb_menages : ℚ
  nb_maisons_individuelles : ℚ
  pct_maisons : ℚ
  pct_residences_principales : ℚ
  revenu_median : ℚ
  niveau_vie_median : ℚ
  taux_pauvrete : ℚ
  code_departement : String
  deriving DecidableEq, Repr

/-- Modelled from the spec: `utils.normalize_score` (the file `utils.py` is
not among the sources).  Spec §4.6: `normalize(value, lower_bound,
upper_bound) = 100 × clamp((value − lower_bound)/(upper_bound −
lower_bound), 0, 1)`, and when `lower_bound == upper_bound` the result is
defined to be 100 if the value is ≥ the bound, else 0. -/
def normalize_score (value lower upper : ℚ) : ℚ :=
  if lower = upper then (if lower ≤ value then 100 else 0)
  else 100 * max 0 (min 1 ((value - lower) / (upper - lower)))

/-- Embeds `ZoneAnalyzer.filter_eligible_communes` (zone_analyzer.py:44-49):
keeps communes with `pct_maisons ≥ 20`, `pct_residences_principales ≥ 50`
and `nb_menages ≥ 100`. -/
def filter_eligible_communes (data : List Commune) : List Commune :=
  data.filter (fun c =>
    decide (20 ≤ c.pct_maisons ∧ 50 ≤ c.pct_residences_principales ∧
      100 ≤ c.nb_menages))

/-- Descending-by-population order on communes (used by
`eligible.nlargest(100, 'population_totale')`). -/
def popGE (a b : Commune) : Prop :=
  b.population_totale ≤ a.population_totale

instance : DecidableRel popGE := fun a b =>
  inferInstanceAs (Decidable (b.population_totale ≤ a.population_totale))

instance : IsTotal Commune popGE :=
  ⟨fun a b => le_total b.population_totale a.population_totale⟩

instance : IsTrans Commune popGE :=
  ⟨fun _ _ _ h h2 => le_trans h2 h⟩

/-- Embeds `DataFrame.nlargest(n, column)`: the first `n` rows of a stable
descending sort by the column (ties keep first occurrence). -/
def nlargest (n : ℕ) (l : List Commune) : List Commune :=
  (List.insertionSort popGE l).take n

/-- Center selection of `create_zones` (zone_analyzer.py:79-83): the
eligible communes with population ≥ 1000, or if none, the 100 eligible
communes with highest population. -/
def selectCenters (eligible : List Commune) : List Commune :=
  if (eligible.filter (fun c => decide (1000 ≤ c.population_totale))).isEmpty then
    nlargest 100 eligible
  else
    eligible.filter (fun c => decide (1000 ≤ c.population_totale))

/-- One row of the per-commune assignment table built in the loop of
`create_zones` (zone_analyzer.py:104-136): the commune row plus
`zone_id`, `distance_to_center` and `center_commune`. -/
structure Assignment (D : Type) where
  commune : Commune
  zone_id : ℕ
  distance_to_center : D
  center_commune : String
  deriving DecidableEq, Repr

/-- Embeds `numpy.ndarray.min()` on a vector embedded as a list: `none` on the
empty list, otherwise the least element. -/
def listMin? {D : Type} [LinearOrder D] : List D → Option D
  | [] => none
  | a :: l => some (l.foldl min a)

/-- The vector `distances` of the assignment loop
(zone_analyzer.py:117-125): distance from commune `c` to every center. -/
def centerDistances {D : Type} (dist : Commune → Commune → D)
    (centers : List Commune) (c : Commune) : List D :=
  centers.map (fun k => dist c k)

/-- The body of the assignment loop of `create_zones`
(zone_analyzer.py:114-136) for one commune: compute the distance to every
center, take the minimum (`distances.min()`); if it is ≤ `max_radius_km`,
assign the commune to the first index attaining the minimum
(`distances.argmin()`), recording the distance and that center's name;
otherwise no assignment is produced. -/
def assignCommune {D : Type} [LinearOrder D] (dist : Commune → Commune → D)
    (centers : List Commune) (r : D) (c : Commune) : Option (Assignment D) :=
  match listMin? (centerDistances dist centers c) with
  | none => none
  | some m =>
    if m ≤ r then
      some { commune := c
             zone_id := (centerDistances dist centers c).indexOf m
             distance_to_center := m
             center_commune := (centers.map (fun k => k.nom_commune)).getD
               ((centerDistances dist centers c).indexOf m) "" }
    else none

/-- The full assignment pass of `create_zones` (zone_analyzer.py:72-136):
eligible communes, center selection, and the per-commune assignment loop
(unassigned communes are dropped). -/
def communeAssignments {D : Type} [LinearOrder D] (dist : Commune → Commune → D)
    (data : List Commune) (r : D) : List (Assignment D) :=
  (filter_eligible_communes data).filterMap
    (assignCommune dist (selectCenters (filter_eligible_communes data)) r)

/-- One row of the zone-level table produced by `_aggregate_zones`
(zone_analyzer.py:178-198).  The `region` column (a fixed lookup on the
department code, from the absent `utils.py`) is not consumed by any claim
and is omitted. -/
structure Zone where
  zone_id : ℕ
  nb_communes : ℕ
  nom_commune : String
  population_totale : ℚ
  nb_menages : ℚ
  nb_maisons_individuelles : ℚ
  latitude : ℚ
  longitude : ℚ
  pct_maisons : ℚ
  pct_residences_principales : ℚ
  revenu_median : ℚ
  niveau_vie_median : ℚ
  taux_pauvrete : ℚ
  code_departement : String
  center_commune : String
  deriving DecidableEq, Repr

/-- Embeds `format_zone_name` (zone_analyzer.py:170-175): sort the member names,
join the first 3 with a comma; if more than 3, append "+ K autres". -/
def format_zone_name (names : List String) : String :=
  let communes := List.insertionSort (fun a b : String => a ≤ b) names
  if communes.length ≤ 3 then
    String.intercalate ", " communes
  else
    String.intercalate ", " (communes.take 3) ++ " + " ++
      toString (communes.length - 3) ++ " autres"

/-- Arithmetic mean of a column (pandas `mean`); 0 on the empty list
(never taken on an empty group). -/
def listMean (l : List ℚ) : ℚ := l.sum / l.length

/-- pandas `median`: middle element of the sorted values for odd length,
mean of the two middle elements for even length. -/
def listMedian (l : List ℚ) : ℚ :=
  let s := List.insertionSort (fun a b : ℚ => a ≤ b) l
  let n := s.length
  if n % 2 = 1 then s.getD (n / 2) 0
  else (s.getD (n / 2 - 1) 0 + s.getD (n / 2) 0) / 2

/-- The distinct `zone_id` keys in ascending order — pandas
`groupby('zone_id')` sorts group keys. -/
def sortedZoneIds {D : Type} (asg : List (Assignment D)) : List ℕ :=
  List.insertionSort (fun a b : ℕ => a ≤ b) (asg.map (fun a => a.zone_id)).dedup

/-- The member rows of one zone, in assignment-table order. -/
def zoneMembers {D : Type} (asg : List (Assignment D)) (zid : ℕ) : List (Assignment D) :=
  asg.filter (fun a => decide (a.zone_id = zid))

/-- One aggregated row of `_aggregate_zones` (the `agg_funcs` dictionary,
zone_analyzer.py:178-193): count, formatted name, sums, means, medians,
and first-member department / center name. -/
def aggregateRow {D : Type} (zid : ℕ) (ms : List (Assignment D)) : Zone :=
  let cs := ms.map (fun a => a.commune)
  { zone_id := zid
    nb_communes := ms.length
    nom_commune := format_zone_name (cs.map (fun c => c.nom_commune))
    population_totale := (cs.map (fun c => c.population_totale)).sum
    nb_menages := (cs.map (fun c => c.nb_menages)).sum
    nb_maisons_individuelles := (cs.map (fun c => c.nb_maisons_individuelles)).sum
    latitude := listMean (cs.map (fun c => c.latitude))
    longitude := listMean (cs.map (fun c => c.longitude))
    pct_maisons := listMean (cs.map (fun c => c.pct_maisons))
    pct_residences_principales := listMean (cs.map (fun c => c.pct_residences_principales))
    revenu_median := listMedian (cs.map (fun c => c.revenu_median))
    niveau_vie_median := listMedian (cs.map (fun c => c.niveau_vie_median))
    taux_pauvrete := listMean (cs.map (fun c => c.taux_pauvrete))
    code_departement := ((cs.head?).map (fun c => c.code_departement)).getD ""
    center_commune := ((ms.head?).map (fun a => a.center_commune)).getD "" }

/-- Embeds `zones_df.groupby('zone_id').agg(agg_funcs)` (zone_analyzer.py:195):
one aggregated row per distinct `zone_id`, keys ascending. -/
def aggregated_zones {D : Type} (asg : List (Assignment D)) : List Zone :=
  (sortedZoneIds asg).map (fun zid => aggregateRow zid (zoneMembers asg zid))

/-- The zone-level strict filter applied at the end of `_aggregate_zones`
(zone_analyzer.py:205-209): mean `pct_maisons ≥ 50`, mean
`pct_residences_principales ≥ 70`, `nb_communes ≥ 2`. -/
def aggregate_zones {D : Type} (asg : List (Assignment D)) : List Zone :=
  (aggregated_zones asg).filter (fun z =>
    decide (50 ≤ z.pct_maisons ∧ 70 ≤ z.pct_residences_principales ∧
      2 ≤ z.nb_communes))

/-- Embeds `ZoneAnalyzer.create_zones` (zone_analyzer.py:53-155): eligibility
filter, center selection, nearest-center assignment within the radius,
aggregation and zone-level filtering.  The early returns on an empty
eligible set or an empty assignment list coincide with aggregating the
empty list. -/
def create_zones {D : Type} [LinearOrder D] (dist : Commune → Commune → D)
    (data : List Commune) (r : D) : List Zone :=
  aggregate_zones (communeAssignments dist data r)

/-- Embeds `Series.min()` over a column embedded as a list (0 on the empty list;
only used on nonempty zone tables). -/
def colMin (l : List ℚ) : ℚ :=
  match l with
  | [] => 0
  | a :: l => l.foldl min a

/-- Embeds `Series.max()` over a column embedded as a list. -/
def colMax (l : List ℚ) : ℚ :=
  match l with
  | [] => 0
  | a :: l => l.foldl max a

/-- The first normalization of `_score_housing` (zone_analyzer.py:273-277):
`pct_maisons` min-max normalized against the current zone set. -/
def housesSubScore (zs : List Zone) (z : Zone) : ℚ :=
  normalize_score z.pct_maisons (colMin (zs.map (fun w => w.pct_maisons)))
    (colMax (zs.map (fun w => w.pct_maisons)))

/-- The second normalization of `_score_housing` (zone_analyzer.py:280-284). -/
def primarySubScore (zs : List Zone) (z : Zone) : ℚ :=
  normalize_score z.pct_residences_principales
    (colMin (zs.map (fun w => w.pct_residences_principales)))
    (colMax (zs.map (fun w => w.pct_residences_principales)))

/-- Embeds `ZoneAnalyzer._score_housing` (zone_analyzer.py:262-289). -/
def score_housing (zs : List Zone) (z : Zone) : ℚ :=
  housesSubScore zs z * 0.6 + primarySubScore zs z * 0.4

/-- The `income_score` normalization of `_score_income`
(zone_analyzer.py:338-342); `m` is `self.national_median_income`. -/
def incomeSubScore (m : ℚ) (z : Zone) : ℚ :=
  normalize_score z.revenu_median (m * 0.8) (m * 1.5)

/-- The `poverty_penalty` normalization of `_score_income`
(zone_analyzer.py:345-349). -/
def povertyPenalty (zs : List Zone) (z : Zone) : ℚ :=
  normalize_score (-z.taux_pauvrete)
    (-(colMax (zs.map (fun w => w.taux_pauvrete))))
    (-(colMin (zs.map (fun w => w.taux_pauvrete))))

/-- Embeds `ZoneAnalyzer._score_income` (zone_analyzer.py:327-354). -/
def score_income (m : ℚ) (zs : List Zone) (z : Zone) : ℚ :=
  incomeSubScore m z * 0.7 + povertyPenalty zs z * 0.3

/-- Embeds `ZoneAnalyzer._score_market_size` (zone_analyzer.py:356-374).
`np.log1p` is transcendental; it enters only through the arguments of the
normalization, so it is taken as an abstract function `lg`, and
`config.MIN_HOUSEHOLDS` (the absent `config.py`) as the parameter `minH`. -/
def score_market_size (minH : ℚ) (lg : ℚ → ℚ) (zs : List Zone) (z : Zone) : ℚ :=
  normalize_score (lg z.nb_menages) (lg minH)
    (lg (colMax (zs.map (fun w => w.nb_menages))))

/-- One row of the scored-zone table of `calculate_scores`
(zone_analyzer.py:236-256). -/
structure ScoredZone extends Zone where
  score_housing : ℚ
  score_income : ℚ
  score_market_size : ℚ
  score_total : ℚ
  potential_clients : ℚ
  rank : ℕ
  deriving DecidableEq, Repr

/-- The score columns added by `calculate_scores` before sorting
(zone_analyzer.py:236-250); `conv` is `config.TARGET_CONVERSION_RATE`.
`rank` is filled in after the sort and is initialized to 0 here. -/
def scoreZone (m minH conv : ℚ) (lg : ℚ → ℚ) (zs : List Zone) (z : Zone) : ScoredZone :=
  { toZone := z
    score_housing := score_housing zs z
    score_income := score_income m zs z
    score_market_size := score_market_size minH lg zs z
    score_total := score_housing zs z * 0.40 + score_income m zs z * 0.30 +
      score_market_size minH lg zs z * 0.30
    potential_clients := z.nb_menages * conv
    rank := 0 }

/-- Ascending order on `score_total`, the key of the underlying ascending
argsort performed by `sort_values`. -/
def scoreAsc (a b : ScoredZone) : Prop :=
  a.score_total ≤ b.score_total

instance : DecidableRel scoreAsc := fun a b =>
  inferInstanceAs (Decidable (a.score_total ≤ b.score_total))

instance : IsTotal ScoredZone scoreAsc :=
  ⟨fun a b => le_total a.score_total b.score_total⟩

instance : IsTrans ScoredZone scoreAsc :=
  ⟨fun _ _ _ h h2 => le_trans h h2⟩

/-- Embeds `zones.sort_values('score_total', ascending=False)`
(zone_analyzer.py:253).  pandas computes an ascending argsort and, for
`ascending=False`, reverses the resulting indexer, so rows tied on the key
come out in reversed input order; numpy's default `quicksort` kind runs a
stable insertion sort below 17 elements (and is unspecified above).  The
embedding therefore takes a stable ascending sort and reverses it — exact
for small tables, and one admissible order of the unstable sort in
general; in particular it does NOT keep tied rows in input order. -/
def sortValuesDesc (l : List ScoredZone) : List ScoredZone :=
  (List.insertionSort scoreAsc l).reverse

/-- Embeds the rank assignment of zone_analyzer.py:256:
consecutive ranks starting at `n`. -/
def setRanks : ℕ → List ScoredZone → List ScoredZone
  | _, [] => []
  | n, z :: zs => { z with rank := n } :: setRanks (n + 1) zs

/-- Embeds the scoring core of `ZoneAnalyzer.calculate_scores` applied to
the zone table it ends up scoring: the still-empty guard of
zone_analyzer.py:224-226 (empty in, empty out) and the scoring, sorting
and ranking of lines 228-258.  The empty-table retry of lines 220-221,
which re-runs `create_zones()` at the default radius first, is modelled on
top of this core in `calculate_scores_method`. -/
def calculate_scores (m minH conv : ℚ) (lg : ℚ → ℚ) (zs : List Zone) : List ScoredZone :=
  if zs.isEmpty then []
  else
    setRanks 1 (sortValuesDesc (zs.map (scoreZone m minH conv lg zs)))

/-- Embeds the full method `ZoneAnalyzer.calculate_scores`
(zone_analyzer.py:213-260), including lines 220-221: when the stored zone
table (`self.zones`, with `none`/empty collapsed to `[]`) is empty, the
method first re-runs `self.create_zones()` — called with
`max_radius_km = None`, i.e. the default radius 15 km of
zone_analyzer.py:69-70 — and scores whatever that retry produced; only if
the table is still empty does it return the empty table (lines 224-226).
Like the rest of the embedding this is parametric in the metric: `dist`
and `rDefault` stand for the haversine distance and the literal 15 km
default. -/
def calculate_scores_method {D : Type} [LinearOrder D] (dist : Commune → Commune → D)
    (data : List Commune) (rDefault : D) (zones : List Zone)
    (m minH conv : ℚ) (lg : ℚ → ℚ) : List ScoredZone :=
  if zones.isEmpty then
    calculate_scores m minH conv lg (create_zones dist data rDefault)
  else
    calculate_scores m minH conv lg zones

/-- Embeds `self.national_median_income` (zone_analyzer.py:30): the median of
`revenu_median` over the full commune table, fixed at construction. -/
def national_median_income (data : List Commune) : ℚ :=
  listMedian (data.map (fun c => c.revenu_median))

/-- The analyzer pipeline `__init__` → `create_zones(r)` → scoring of the
radius-`r` zone table: scoring uses the national median computed from the
full original table, while zones come from the filtered pipeline.  A run
in which the radius-`r` table is empty and the retry of
`calculate_scores_method` scores the default-radius table instead is this
same pipeline at the default radius. -/
def analyzer_scores {D : Type} [LinearOrder D] (dist : Commune → Commune → D)
    (data : List Commune) (r : D) (minH conv : ℚ) (lg : ℚ → ℚ) : List ScoredZone :=
  calculate_scores (national_median_income data) minH conv lg (create_zones dist data r)

/-- Embeds `ZoneAnalyzer.get_zone_details` (zone_analyzer.py:391-410): select the
rows with the given `zone_id`; an empty selection yields the empty
dictionary (`none` here), otherwise the first row (`zone.iloc[0]`). -/
def get_zone_details (scored : List ScoredZone) (zid : ℕ) : Option ScoredZone :=
  match scored.filter (fun z => decide (z.zone_id = zid)) with
  | [] => none
  | z :: _ => some z

/-- The haversine distance of the assignment loop
(zone_analyzer.py:117-125): `np.radians`, `sin²(Δφ/2) + cos φ₁ cos φ₂
sin²(Δλ/2)`, `c = 2·arcsin(√a)`, Earth radius 6371 km. -/
noncomputable def haversine_km (lat1 lon1 lat2 lon2 : ℝ) : ℝ :=
  let dlat := (lat2 - lat1) * Real.pi / 180
  let dlon := (lon2 - lon1) * Real.pi / 180
  let a := Real.sin (dlat / 2) ^ 2 +
    Real.cos (lat1 * Real.pi / 180) * Real.cos (lat2 * Real.pi / 180) *
      Real.sin (dlon / 2) ^ 2
  6371 * (2 * Real.arcsin (Real.sqrt a))

/-- Haversine distance between a commune and a center, in km. -/
noncomputable def haversineDist (c k : Commune) : ℝ :=
  haversine_km c.latitude c.longitude k.latitude k.longitude

/-- Sample commune builder for concrete evaluations. -/
def mkCommune (code nom : String) (lat lon pop men : ℚ) : Commune :=
  { code_commune := code, nom_commune := nom, latitude := lat, longitude := lon,
    population_totale := pop, nb_menages := men, nb_maisons_individuelles := 10,
    pct_maisons := 60, pct_residences_principales := 80, revenu_median := 20000,
    niveau_vie_median := 21000, taux_pauvrete := 12, code_departement := "01" }

/-- A concrete computable distance function (squared Euclidean on
coordinates) used to evaluate the assignment logic, which is parametric in
the metric. -/
def wDist (c k : Commune) : ℚ :=
  (c.latitude - k.latitude) * (c.latitude - k.latitude) +
    (c.longitude - k.longitude) * (c.longitude - k.longitude)

/-- A concrete four-commune table: two centers (population ≥ 1000), one
satellite near the first, one far-away commune. -/
def wData : List Commune :=
  [mkCommune "A" "Alpha" 0 0 2000 500, mkCommune "B" "Beta" 1 0 500 300,
   mkCommune "C" "Gamma" 100 0 3000 400, mkCommune "D" "Delta" 0 1 900 200]

/-- A concrete zone row for evaluating the scoring primitives. -/
def wZone : Zone :=
  { zone_id := 0, nb_communes := 3, nom_commune := "Alpha, Beta, Delta",
    population_totale := 3400, nb_menages := 1000, nb_maisons_individuelles := 30,
    latitude := 1 / 3, longitude := 1 / 3, pct_maisons := 60,
    pct_residences_principales := 80, revenu_median := 20000,
    niveau_vie_median := 21000, taux_pauvrete := 12, code_departement := "01",
    center_commune := "Alpha" }

/-- A concrete scored-zone row, used as the default of `List.getD`. -/
def wScored : ScoredZone :=
  scoreZone 20000 100 (2 / 100) (fun x => x) [wZone] wZone

/-- A concrete distance table on the communes of `wData`, defined by name
lookup only (no rational arithmetic, so it evaluates inside `decide`):
distance 0 to itself, 100 to or from Gamma, 1 between the others. -/
def cDist (c k : Commune) : ℚ :=
  if c.nom_commune = k.nom_commune then 0
  else if c.nom_commune = "Gamma" ∨ k.nom_commune = "Gamma" then 100
  else 1

end ZA

namespace ZA

/-! ### Helper lemmas: folded minima, `indexOf`, `colMin`/`colMax` -/

theorem foldl_min_le_init {D : Type} [LinearOrder D] (l : List D) (a : D) :
    l.foldl min a ≤ a := by
  induction l generalizing a with
  | nil => simp
  | cons b t ih => exact le_trans (ih (min a b)) (min_le_left a b)

theorem foldl_min_le_mem {D : Type} [LinearOrder D] {l : List D} {x : D}
    (hx : x ∈ l) (a : D) : l.foldl min a ≤ x := by
  induction l generalizing a with
  | nil => cases hx
  | cons b t ih =>
    rcases List.mem_cons.mp hx with rfl | hx
    · exact le_trans (foldl_min_le_init t (min a x)) (min_le_right a x)
    · exact ih hx (min a b)

theorem foldl_min_mem {D : Type} [LinearOrder D] (l : List D) (a : D) :
    l.foldl min a = a ∨ l.foldl min a ∈ l := by
  induction l generalizing a with
  | nil => exact Or.inl rfl
  | cons b t ih =>
    have hstep : (b :: t).foldl min a = t.foldl min (min a b) := rfl
    rcases ih (min a b) with h | h
    · rcases le_total a b with hab | hab
      · exact Or.inl (by rw [hstep, h, min_eq_left hab])
      · exact Or.inr (by rw [hstep, h, min_eq_right hab]; exact List.mem_cons_self b t)
    · exact Or.inr (by rw [hstep]; exact List.mem_cons_of_mem b h)

theorem listMin?_mem {D : Type} [LinearOrder D] {l : List D} {m : D}
    (h : listMin? l = some m) : m ∈ l := by
  cases l with
  | nil => simp [listMin?] at h
  | cons a t =>
    simp only [listMin?, Option.some.injEq] at h
    subst h
    rcases foldl_min_mem t a with h2 | h2
    · rw [h2]; exact List.mem_cons_self a t
    · exact List.mem_cons_of_mem a h2

theorem listMin?_le {D : Type} [LinearOrder D] {l : List D} {m : D}
    (h : listMin? l = some m) : ∀ x ∈ l, m ≤ x := by
  cases l with
  | nil => simp [listMin?] at h
  | cons a t =>
    simp only [listMin?, Option.some.injEq] at h
    intro x hx
    rcases List.mem_cons.mp hx with rfl | hx
    · exact h ▸ foldl_min_le_init t x
    · exact h ▸ foldl_min_le_mem hx a

theorem listMin?_isSome {D : Type} [LinearOrder D] {l : List D} (h : l ≠ []) :
    ∃ m, listMin? l = some m := by
  cases l with
  | nil => exact absurd rfl h
  | cons a t => exact ⟨t.foldl min a, rfl⟩

theorem getD_zero_mem {α : Type} {l : List α} (h : l ≠ []) (d : α) :
    l.getD 0 d ∈ l := by
  cases l with
  | nil => exact absurd rfl h
  | cons a t => exact List.mem_cons_self a t

theorem indexOf_le_of_get {α : Type} [DecidableEq α] :
    ∀ (l : List α) (j : ℕ) (hj : j < l.length) (a : α),
      l.get ⟨j, hj⟩ = a → l.indexOf a ≤ j := by
  intro l
  induction l with
  | nil => intro j hj; simp at hj
  | cons b t ih =>
    intro j hj a hget
    by_cases hba : b = a
    · rw [List.indexOf_cons_eq t hba]; exact Nat.zero_le j
    · cases j with
      | zero => exact absurd hget hba
      | succ j =>
        rw [List.indexOf_cons_ne t hba]
        exact Nat.succ_le_succ (ih j (by simpa using hj) a (by simpa using hget))

/-! ### Characterization of the per-commune assignment step -/

theorem assignCommune_eq_some {D : Type} [LinearOrder D] {dist : Commune → Commune → D}
    {centers : List Commune} {r : D} {c : Commune} {a : Assignment D}
    (h : assignCommune dist centers r c = some a) :
    a.commune = c ∧ a.distance_to_center ≤ r ∧
    ∃ hz : a.zone_id < centers.length,
      a.distance_to_center = dist c (centers.get ⟨a.zone_id, hz⟩) ∧
      a.center_commune = (centers.get ⟨a.zone_id, hz⟩).nom_commune ∧
      (∀ j, (hj : j < centers.length) →
        a.distance_to_center ≤ dist c (centers.get ⟨j, hj⟩)) ∧
      (∀ j, (hj : j < centers.length) →
        dist c (centers.get ⟨j, hj⟩) = a.distance_to_center → a.zone_id ≤ j) := by
  unfold assignCommune at h
  cases hm : listMin? (centerDistances dist centers c) with
  | none => rw [hm] at h; exact absurd h (by simp)
  | some m =>
    rw [hm] at h
    dsimp only at h
    by_cases hmr : m ≤ r
    · rw [if_pos hmr] at h
      have ha := (Option.some.injEq _ _).mp h
      have hmem : m ∈ centerDistances dist centers c := listMin?_mem hm
      have hlen : (centerDistances dist centers c).length = centers.length :=
        List.length_map _ _
      have hidx : (centerDistances dist centers c).indexOf m < centers.length := by
        rw [← hlen]; exact List.indexOf_lt_length.mpr hmem
      have hb2 : (centerDistances dist centers c).indexOf m <
          (centerDistances dist centers c).length := by rw [hlen]; exact hidx
      have h9 : (centerDistances dist centers c).get
          ⟨(centerDistances dist centers c).indexOf m, hb2⟩ =
          dist c (centers.get ⟨(centerDistances dist centers c).indexOf m, hidx⟩) := by
        simp only [centerDistances, List.get_eq_getElem, List.getElem_map]
      have hgetidx :
          dist c (centers.get ⟨(centerDistances dist centers c).indexOf m, hidx⟩) = m :=
        h9.symm.trans (List.indexOf_get hb2)
      refine ⟨by rw [← ha], by rw [← ha]; exact hmr, ?_⟩
      have hzid : a.zone_id = (centerDistances dist centers c).indexOf m := by
        rw [← ha]
      have hdc : a.distance_to_center = m := by rw [← ha]
      have hz : a.zone_id < centers.length := by rw [hzid]; exact hidx
      have h7 : centers.get ⟨a.zone_id, hz⟩ =
          centers.get ⟨(centerDistances dist centers c).indexOf m, hidx⟩ := by
        congr 1
        exact Fin.ext hzid
      refine ⟨hz, ?_, ?_, ?_, ?_⟩
      · rw [hdc, h7]
        exact hgetidx.symm
      · rw [h7, ← ha]
        have hb : (centerDistances dist centers c).indexOf m <
            (centers.map (fun k => k.nom_commune)).length := by
          rw [List.length_map]; exact hidx
        show (centers.map (fun k => k.nom_commune)).getD
            ((centerDistances dist centers c).indexOf m) "" = _
        rw [List.getD_eq_getElem?_getD, List.getElem?_eq_getElem hb]
        simp [List.get_eq_getElem]
      · intro j hj
        rw [hdc]
        have hx : dist c (centers.get ⟨j, hj⟩) ∈ centerDistances dist centers c :=
          List.mem_map.mpr ⟨centers.get ⟨j, hj⟩, List.get_mem centers j hj, rfl⟩
        exact listMin?_le hm _ hx
      · intro j hj hje
        rw [hzid]
        refine indexOf_le_of_get (centerDistances dist centers c) j
          (by rw [hlen]; exact hj) m ?_
        rw [hdc] at hje
        rw [← hje]
        simp [centerDistances, List.get_eq_getElem]
    · rw [if_neg hmr] at h
      exact absurd h (by simp)

theorem assignCommune_isSome {D : Type} [LinearOrder D] (dist : Commune → Commune → D)
    (centers : List Commune) (r : D) (c : Commune) {j : ℕ} (hj : j < centers.length)
    (hle : dist c (centers.get ⟨j, hj⟩) ≤ r) :
    ∃ a, assignCommune dist centers r c = some a := by
  have hne : centerDistances dist centers c ≠ [] := by
    intro he
    have h5 : (centerDistances dist centers c).length = centers.length :=
      List.length_map _ _
    rw [he] at h5
    simp at h5
    omega
  obtain ⟨m, hm⟩ := listMin?_isSome hne
  have hx : dist c (centers.get ⟨j, hj⟩) ∈ centerDistances dist centers c :=
    List.mem_map.mpr ⟨centers.get ⟨j, hj⟩, List.get_mem centers j hj, rfl⟩
  have hmr : m ≤ r := le_trans (listMin?_le hm _ hx) hle
  have hs : (assignCommune dist centers r c).isSome := by
    unfold assignCommune
    rw [hm]
    dsimp only
    rw [if_pos hmr]
    rfl
  exact Option.isSome_iff_exists.mp hs

/-! ### Center selection -/

theorem selectCenters_of_exists {eligible : List Commune}
    (h : ∃ c ∈ eligible, 1000 ≤ c.population_totale) :
    selectCenters eligible =
      eligible.filter (fun c => decide (1000 ≤ c.population_totale)) := by
  unfold selectCenters
  rw [if_neg]
  intro he
  rw [List.isEmpty_iff, List.filter_eq_nil_iff] at he
  obtain ⟨c, hc, hpop⟩ := h
  exact he c hc (by simpa using hpop)

theorem selectCenters_fallback {eligible : List Commune}
    (h : ∀ c ∈ eligible, ¬1000 ≤ c.population_totale) :
    selectCenters eligible = nlargest 100 eligible := by
  unfold selectCenters
  rw [if_pos]
  rw [List.isEmpty_iff, List.filter_eq_nil_iff]
  intro c hc
  simpa using h c hc

theorem nlargest_spec (n : ℕ) (l : List Commune) :
    (nlargest n l).length = min n l.length ∧
    (∀ k ∈ nlargest n l, k ∈ l) ∧
    (∀ k ∈ nlargest n l, ∀ e ∈ l, e ∉ nlargest n l →
      e.population_totale ≤ k.population_totale) := by
  refine ⟨?_, ?_, ?_⟩
  · unfold nlargest
    rw [List.length_take, List.length_insertionSort]
  · intro k hk
    have hk2 : k ∈ List.insertionSort popGE l :=
      (List.take_sublist n (List.insertionSort popGE l)).mem hk
    exact (List.mem_insertionSort popGE).mp hk2
  · intro k hk e he hen
    have hs : List.Sorted popGE (List.insertionSort popGE l) :=
      List.sorted_insertionSort popGE l
    have hsplit := List.take_append_drop n (List.insertionSort popGE l)
    have hs2 : List.Pairwise popGE
        ((List.insertionSort popGE l).take n ++ (List.insertionSort popGE l).drop n) := by
      rw [hsplit]; exact hs
    have hcross := (List.pairwise_append.mp hs2).2.2
    have he2 : e ∈ List.insertionSort popGE l := (List.mem_insertionSort popGE).mpr he
    have he3 : e ∈ (List.insertionSort popGE l).take n ++
        (List.insertionSort popGE l).drop n := by rw [hsplit]; exact he2
    rcases List.mem_append.mp he3 with he4 | he4
    · exact absurd he4 hen
    · exact hcross k hk e he4

/-! ### Claim theorems -/

/-- C1: `create_zones` follows the specified algorithm for every input
table and radius: the center set is the eligible communes with
`population_totale ≥ 1000` or, if that set is empty, the 100 eligible
communes with highest population; each eligible commune is assigned (by
haversine distance, Earth radius 6371 km) to the zone of its nearest
center — recording that distance and the center's name — if and only if
that minimum distance is ≤ `max_radius_km`; every recorded
`distance_to_center` is ≤ `max_radius_km`; and the zone table is the
aggregation of exactly these assignments. -/
theorem c1_create_zones_algorithm (data : List Commune) (r : ℝ) :
    ((∃ c ∈ filter_eligible_communes data, 1000 ≤ c.population_totale) →
      ∀ k, k ∈ selectCenters (filter_eligible_communes data) ↔
        k ∈ filter_eligible_communes data ∧ 1000 ≤ k.population_totale) ∧
    ((∀ c ∈ filter_eligible_communes data, ¬1000 ≤ c.population_totale) →
      (selectCenters (filter_eligible_communes data)).length =
        min 100 (filter_eligible_communes data).length ∧
      (∀ k ∈ selectCenters (filter_eligible_communes data),
        k ∈ filter_eligible_communes data) ∧
      (∀ k ∈ selectCenters (filter_eligible_communes data),
        ∀ e ∈ filter_eligible_communes data,
          e ∉ selectCenters (filter_eligible_communes data) →
            e.population_totale ≤ k.population_totale)) ∧
    (∀ a ∈ communeAssignments haversineDist data r,
      a.distance_to_center ≤ r ∧
      a.commune ∈ filter_eligible_communes data ∧
      ∃ hz : a.zone_id < (selectCenters (filter_eligible_communes data)).length,
        a.distance_to_center = haversineDist a.commune
          ((selectCenters (filter_eligible_communes data)).get ⟨a.zone_id, hz⟩) ∧
        a.center_commune =
          ((selectCenters (filter_eligible_communes data)).get ⟨a.zone_id, hz⟩).nom_commune ∧
        (∀ j, (hj : j < (selectCenters (filter_eligible_communes data)).length) →
          a.distance_to_center ≤ haversineDist a.commune
            ((selectCenters (filter_eligible_communes data)).get ⟨j, hj⟩)) ∧
        (∀ j, (hj : j < (selectCenters (filter_eligible_communes data)).length) →
          haversineDist a.commune
              ((selectCenters (filter_eligible_communes data)).get ⟨j, hj⟩) =
            a.distance_to_center → a.zone_id ≤ j)) ∧
    (∀ c ∈ filter_eligible_communes data,
      (∃ a ∈ communeAssignments haversineDist data r, a.commune = c) ↔
      ∃ j, ∃ hj : j < (selectCenters (filter_eligible_communes data)).length,
        haversineDist c ((selectCenters (filter_eligible_communes data)).get ⟨j, hj⟩) ≤ r) ∧
    create_zones haversineDist data r =
      aggregate_zones (communeAssignments haversineDist data r) := by
  refine ⟨?_, ?_, ?_, ?_, rfl⟩
  · intro h k
    rw [selectCenters_of_exists h, List.mem_filter]
    simp
  · intro h
    rw [selectCenters_fallback h]
    exact nlargest_spec 100 _
  · intro a ha
    obtain ⟨c, hc, hac⟩ := List.mem_filterMap.mp ha
    obtain ⟨hcomm, hle, hz, hdist, hname, hmin, hfirst⟩ := assignCommune_eq_some hac
    subst hcomm
    exact ⟨hle, hc, hz, hdist, hname, hmin, hfirst⟩
  · intro c hc
    constructor
    · rintro ⟨a, ha, hacomm⟩
      obtain ⟨c2, _, hac⟩ := List.mem_filterMap.mp ha
      obtain ⟨hcomm, hle, hz, hdist, -, -, -⟩ := assignCommune_eq_some hac
      refine ⟨a.zone_id, ?_⟩
      rw [hacomm] at hcomm
      subst hcomm
      exact ⟨hz, by rw [← hdist]; exact hle⟩
    · rintro ⟨j, hj, hle⟩
      obtain ⟨a, ha⟩ := assignCommune_isSome haversineDist
        (selectCenters (filter_eligible_communes data)) r c hj hle
      have hcomm := (assignCommune_eq_some ha).1
      exact ⟨a, List.mem_filterMap.mpr ⟨c, hc, ha⟩, hcomm⟩

/-- C2: on input tables with distinct commune codes, the assignment
produced in one run of `create_zones` is a partial function — no commune
code appears under two different `zone_id`s, each assigned commune maps to
exactly one assignment row, and the member sets of distinct zones are
pairwise disjoint. -/
theorem c2_assignment_partial_function {D : Type} [LinearOrder D]
    (dist : Commune → Commune → D) (data : List Commune) (r : D)
    (hnd : (data.map (fun c => c.code_commune)).Nodup) :
    (∀ a ∈ communeAssignments dist data r, ∀ b ∈ communeAssignments dist data r,
      a.commune.code_commune = b.commune.code_commune → a = b) ∧
    (∀ a ∈ communeAssignments dist data r, ∀ b ∈ communeAssignments dist data r,
      a.commune.code_commune = b.commune.code_commune → a.zone_id = b.zone_id) ∧
    (∀ z1 z2 : ℕ, z1 ≠ z2 →
      ∀ a ∈ zoneMembers (communeAssignments dist data r) z1,
        ∀ b ∈ zoneMembers (communeAssignments dist data r) z2,
          a.commune.code_commune ≠ b.commune.code_commune) := by
  have hnd2 : ((filter_eligible_communes data).map (fun c => c.code_commune)).Nodup :=
    hnd.sublist ((List.filter_sublist data).map (fun c => c.code_commune))
  have hkey : ∀ a ∈ communeAssignments dist data r,
      ∀ b ∈ communeAssignments dist data r,
        a.commune.code_commune = b.commune.code_commune → a = b := by
    intro a ha b hb he
    obtain ⟨ca, hca, haa⟩ := List.mem_filterMap.mp ha
    obtain ⟨cb, hcb, hbb⟩ := List.mem_filterMap.mp hb
    have h1 : a.commune = ca := (assignCommune_eq_some haa).1
    have h2 : b.commune = cb := (assignCommune_eq_some hbb).1
    have hcab : ca = cb :=
      List.inj_on_of_nodup_map hnd2 hca hcb (by rw [← h1, ← h2]; exact he)
    subst hcab
    rw [haa] at hbb
    exact Option.some.injEq a b ▸ hbb.symm ▸ rfl
  refine ⟨hkey, fun a ha b hb he => by rw [hkey a ha b hb he], ?_⟩
  intro z1 z2 hz a ha b hb he
  have ha2 := List.mem_filter.mp ha
  have hb2 := List.mem_filter.mp hb
  have hab := hkey a ha2.1 b hb2.1 he
  apply hz
  have ha3 : a.zone_id = z1 := by simpa using ha2.2
  have hb3 : b.zone_id = z2 := by simpa using hb2.2
  rw [← ha3, ← hb3, hab]

/-- Witness for C2 at a concrete four-commune table with distinct codes. -/
theorem c2_witness :
    (∀ a ∈ communeAssignments wDist wData 15, ∀ b ∈ communeAssignments wDist wData 15,
      a.commune.code_commune = b.commune.code_commune → a = b) ∧
    (∀ a ∈ communeAssignments wDist wData 15, ∀ b ∈ communeAssignments wDist wData 15,
      a.commune.code_commune = b.commune.code_commune → a.zone_id = b.zone_id) ∧
    (∀ z1 z2 : ℕ, z1 ≠ z2 →
      ∀ a ∈ zoneMembers (communeAssignments wDist wData 15) z1,
        ∀ b ∈ zoneMembers (communeAssignments wDist wData 15) z2,
          a.commune.code_commune ≠ b.commune.code_commune) :=
  c2_assignment_partial_function wDist wData 15 (by decide)

/-- C3: every zone in the table returned by the zone-level filter (after
aggregation) has `nb_communes ≥ 2`, mean `pct_maisons ≥ 50` and mean
`pct_residences_principales ≥ 70`, and exactly the aggregated zones
satisfying all three conditions are kept (the rest are discarded). -/
theorem c3_zone_level_filter {D : Type} (asg : List (Assignment D)) :
    (∀ z ∈ aggregate_zones asg,
      2 ≤ z.nb_communes ∧ 50 ≤ z.pct_maisons ∧ 70 ≤ z.pct_residences_principales) ∧
    (∀ z : Zone, z ∈ aggregate_zones asg ↔
      z ∈ aggregated_zones asg ∧ 50 ≤ z.pct_maisons ∧
        70 ≤ z.pct_residences_principales ∧ 2 ≤ z.nb_communes) := by
  constructor
  · intro z hz
    have h := (List.mem_filter.mp hz).2
    simp only [decide_eq_true_eq] at h
    exact ⟨h.2.2, h.1, h.2.1⟩
  · intro z
    unfold aggregate_zones
    rw [List.mem_filter]
    simp

theorem sortedZoneIds_nodup {D : Type} (asg : List (Assignment D)) :
    (sortedZoneIds asg).Nodup :=
  (List.perm_insertionSort _ _).nodup_iff.mpr (List.nodup_dedup _)

theorem mem_sortedZoneIds {D : Type} (asg : List (Assignment D)) (i : ℕ) :
    i ∈ sortedZoneIds asg ↔ ∃ a ∈ asg, a.zone_id = i := by
  unfold sortedZoneIds
  simp [List.mem_dedup]

theorem map_zone_id_aggregated {D : Type} (asg : List (Assignment D)) :
    (aggregated_zones asg).map (fun z => z.zone_id) = sortedZoneIds asg := by
  unfold aggregated_zones
  rw [List.map_map]
  have h : ((fun z : Zone => z.zone_id) ∘ fun zid => aggregateRow zid (zoneMembers asg zid)) =
      fun zid : ℕ => zid := rfl
  rw [h, List.map_id']

/-- C6: the zone aggregation produces exactly one row per distinct
`zone_id`, and on each row: `nb_communes` counts the members; the readable
name is the sorted member names, first 3 joined, with a "+K autres" suffix
beyond 3; population, household and house counts are summed; the two
percentage columns and the poverty rate are arithmetic means over members;
income and living-standard are medians over members; latitude/longitude
are simple means; department and center name come from the first member in
assignment order. -/
theorem c6_aggregation_rules {D : Type} (asg : List (Assignment D)) :
    ((aggregated_zones asg).map (fun z => z.zone_id)).Nodup ∧
    (∀ i : ℕ, i ∈ (aggregated_zones asg).map (fun z => z.zone_id) ↔
      ∃ a ∈ asg, a.zone_id = i) ∧
    (∀ z ∈ aggregated_zones asg,
      z.nb_communes = (zoneMembers asg z.zone_id).length ∧
      z.nom_commune = format_zone_name
        ((zoneMembers asg z.zone_id).map (fun a => a.commune.nom_commune)) ∧
      z.population_totale =
        ((zoneMembers asg z.zone_id).map (fun a => a.commune.population_totale)).sum ∧
      z.nb_menages =
        ((zoneMembers asg z.zone_id).map (fun a => a.commune.nb_menages)).sum ∧
      z.nb_maisons_individuelles =
        ((zoneMembers asg z.zone_id).map
          (fun a => a.commune.nb_maisons_individuelles)).sum ∧
      z.pct_maisons = listMean
        ((zoneMembers asg z.zone_id).map (fun a => a.commune.pct_maisons)) ∧
      z.pct_residences_principales = listMean
        ((zoneMembers asg z.zone_id).map
          (fun a => a.commune.pct_residences_principales)) ∧
      z.taux_pauvrete = listMean
        ((zoneMembers asg z.zone_id).map (fun a => a.commune.taux_pauvrete)) ∧
      z.revenu_median = listMedian
        ((zoneMembers asg z.zone_id).map (fun a => a.commune.revenu_median)) ∧
      z.niveau_vie_median = listMedian
        ((zoneMembers asg z.zone_id).map (fun a => a.commune.niveau_vie_median)) ∧
      z.latitude = listMean
        ((zoneMembers asg z.zone_id).map (fun a => a.commune.latitude)) ∧
      z.longitude = listMean
        ((zoneMembers asg z.zone_id).map (fun a => a.commune.longitude)) ∧
      z.code_departement = (((zoneMembers asg z.zone_id).head?).map
        (fun a => a.commune.code_departement)).getD "" ∧
      z.center_commune = (((zoneMembers asg z.zone_id).head?).map
        (fun a => a.center_commune)).getD "") := by
  refine ⟨?_, ?_, ?_⟩
  · rw [map_zone_id_aggregated]
    exact sortedZoneIds_nodup asg
  · intro i
    rw [map_zone_id_aggregated]
    exact mem_sortedZoneIds asg i
  · intro z hz
    obtain ⟨zid, hzid, hzeq⟩ := List.mem_map.mp hz
    subst hzeq
    have hid : (aggregateRow zid (zoneMembers asg zid)).zone_id = zid := rfl
    rw [hid]
    refine ⟨rfl, ?_, ?_, ?_, ?_, ?_, ?_, ?_, ?_, ?_, ?_, ?_, ?_, ?_⟩ <;>
      simp [aggregateRow, List.map_map, List.head?_map, Option.map_map, Function.comp_def]

/-! ### Scoring: range lemmas and membership in `calculate_scores` -/

theorem normalize_score_nonneg (v lo hi : ℚ) : 0 ≤ normalize_score v lo hi := by
  unfold normalize_score
  split_ifs
  · norm_num
  · norm_num
  · exact mul_nonneg (by norm_num) (le_max_left 0 _)

theorem normalize_score_le_100 (v lo hi : ℚ) : normalize_score v lo hi ≤ 100 := by
  unfold normalize_score
  split_ifs
  · norm_num
  · norm_num
  · have h3 : max 0 (min 1 ((v - lo) / (hi - lo))) ≤ 1 :=
      max_le (by norm_num) (min_le_left _ _)
    linarith

theorem score_housing_bounds (zs : List Zone) (z : Zone) :
    0 ≤ score_housing zs z ∧ score_housing zs z ≤ 100 := by
  unfold score_housing
  have h1 := normalize_score_nonneg z.pct_maisons
    (colMin (zs.map (fun w => w.pct_maisons))) (colMax (zs.map (fun w => w.pct_maisons)))
  have h2 := normalize_score_le_100 z.pct_maisons
    (colMin (zs.map (fun w => w.pct_maisons))) (colMax (zs.map (fun w => w.pct_maisons)))
  have h3 := normalize_score_nonneg z.pct_residences_principales
    (colMin (zs.map (fun w => w.pct_residences_principales)))
    (colMax (zs.map (fun w => w.pct_residences_principales)))
  have h4 := normalize_score_le_100 z.pct_residences_principales
    (colMin (zs.map (fun w => w.pct_residences_principales)))
    (colMax (zs.map (fun w => w.pct_residences_principales)))
  unfold housesSubScore primarySubScore
  constructor <;> linarith

theorem score_income_bounds (m : ℚ) (zs : List Zone) (z : Zone) :
    0 ≤ score_income m zs z ∧ score_income m zs z ≤ 100 := by
  unfold score_income incomeSubScore povertyPenalty
  have h1 := normalize_score_nonneg z.revenu_median (m * 0.8) (m * 1.5)
  have h2 := normalize_score_le_100 z.revenu_median (m * 0.8) (m * 1.5)
  have h3 := normalize_score_nonneg (-z.taux_pauvrete)
    (-(colMax (zs.map (fun w => w.taux_pauvrete))))
    (-(colMin (zs.map (fun w => w.taux_pauvrete))))
  have h4 := normalize_score_le_100 (-z.taux_pauvrete)
    (-(colMax (zs.map (fun w => w.taux_pauvrete))))
    (-(colMin (zs.map (fun w => w.taux_pauvrete))))
  constructor <;> linarith

theorem score_market_size_bounds (minH : ℚ) (lg : ℚ → ℚ) (zs : List Zone) (z : Zone) :
    0 ≤ score_market_size minH lg zs z ∧ score_market_size minH lg zs z ≤ 100 := by
  unfold score_market_size
  exact ⟨normalize_score_nonneg _ _ _, normalize_score_le_100 _ _ _⟩

theorem mem_setRanks {a : ScoredZone} :
    ∀ (l : List ScoredZone) (n : ℕ), a ∈ setRanks n l →
      ∃ b ∈ l, a = { b with rank := a.rank } := by
  intro l
  induction l with
  | nil => intro n ha; cases ha
  | cons z zs ih =>
    intro n ha
    have ha2 : a ∈ ({ z with rank := n } :: setRanks (n + 1) zs) := ha
    rcases List.mem_cons.mp ha2 with he | h
    · refine ⟨z, List.mem_cons_self z zs, ?_⟩
      rw [he]
    · obtain ⟨b, hb, he⟩ := ih (n + 1) h
      exact ⟨b, List.mem_cons_of_mem z hb, he⟩

theorem mem_calculate_scores {m minH conv : ℚ} {lg : ℚ → ℚ} {zs : List Zone}
    {sz : ScoredZone} (h : sz ∈ calculate_scores m minH conv lg zs) :
    ∃ z ∈ zs, sz = { scoreZone m minH conv lg zs z with rank := sz.rank } := by
  unfold calculate_scores at h
  by_cases he : zs.isEmpty
  · rw [if_pos he] at h
    cases h
  · rw [if_neg he] at h
    obtain ⟨b, hb, hab⟩ := mem_setRanks _ _ h
    have hb1 : b ∈ List.insertionSort scoreAsc (zs.map (scoreZone m minH conv lg zs)) :=
      List.mem_reverse.mp hb
    have hb2 : b ∈ zs.map (scoreZone m minH conv lg zs) :=
      (List.mem_insertionSort scoreAsc).mp hb1
    obtain ⟨z, hz, hbz⟩ := List.mem_map.mp hb2
    exact ⟨z, hz, by rw [hab, ← hbz]⟩

theorem setRanks_length : ∀ (l : List ScoredZone) (n : ℕ),
    (setRanks n l).length = l.length := by
  intro l
  induction l with
  | nil => intro n; rfl
  | cons z zs ih => intro n; simp [setRanks, ih]

/-- C4: in the output of `calculate_scores`, for any input zone table,
any configuration constants and any log transform, all four scores lie in
the interval `[0, 100]`. -/
theorem c4_scores_in_range (m minH conv : ℚ) (lg : ℚ → ℚ) (zs : List Zone) :
    ∀ sz ∈ calculate_scores m minH conv lg zs,
      (0 ≤ sz.score_housing ∧ sz.score_housing ≤ 100) ∧
      (0 ≤ sz.score_income ∧ sz.score_income ≤ 100) ∧
      (0 ≤ sz.score_market_size ∧ sz.score_market_size ≤ 100) ∧
      (0 ≤ sz.score_total ∧ sz.score_total ≤ 100) := by
  intro sz hsz
  obtain ⟨z, hz, he⟩ := mem_calculate_scores hsz
  have h1 : sz.score_housing = score_housing zs z := by rw [he]; rfl
  have h2 : sz.score_income = score_income m zs z := by rw [he]; rfl
  have h3 : sz.score_market_size = score_market_size minH lg zs z := by rw [he]; rfl
  have h4 : sz.score_total = score_housing zs z * 0.40 + score_income m zs z * 0.30 +
      score_market_size minH lg zs z * 0.30 := by rw [he]; rfl
  have hh := score_housing_bounds zs z
  have hi := score_income_bounds m zs z
  have hm := score_market_size_bounds minH lg zs z
  refine ⟨⟨?_, ?_⟩, ⟨?_, ?_⟩, ⟨?_, ?_⟩, ⟨?_, ?_⟩⟩
  · rw [h1]; exact hh.1
  · rw [h1]; exact hh.2
  · rw [h2]; exact hi.1
  · rw [h2]; exact hi.2
  · rw [h3]; exact hm.1
  · rw [h3]; exact hm.2
  · rw [h4]; linarith [hh.1, hi.1, hm.1]
  · rw [h4]; linarith [hh.2, hi.2, hm.2]

/-- Witness for C4: the top-ranked scored zone of a concrete one-zone run
has all four scores within bounds. -/
theorem c4_witness :
    (0 ≤ ((calculate_scores 20000 100 (2 / 100) (fun x => x) [wZone]).getD 0 wScored).score_housing ∧
      ((calculate_scores 20000 100 (2 / 100) (fun x => x) [wZone]).getD 0 wScored).score_housing ≤ 100) ∧
    (0 ≤ ((calculate_scores 20000 100 (2 / 100) (fun x => x) [wZone]).getD 0 wScored).score_income ∧
      ((calculate_scores 20000 100 (2 / 100) (fun x => x) [wZone]).getD 0 wScored).score_income ≤ 100) ∧
    (0 ≤ ((calculate_scores 20000 100 (2 / 100) (fun x => x) [wZone]).getD 0 wScored).score_market_size ∧
      ((calculate_scores 20000 100 (2 / 100) (fun x => x) [wZone]).getD 0 wScored).score_market_size ≤ 100) ∧
    (0 ≤ ((calculate_scores 20000 100 (2 / 100) (fun x => x) [wZone]).getD 0 wScored).score_total ∧
      ((calculate_scores 20000 100 (2 / 100) (fun x => x) [wZone]).getD 0 wScored).score_total ≤ 100) :=
  c4_scores_in_range 20000 100 (2 / 100) (fun x => x) [wZone]
    ((calculate_scores 20000 100 (2 / 100) (fun x => x) [wZone]).getD 0 wScored)
    (getD_zero_mem (by decide) wScored)

theorem foldl_min_const (c : ℚ) : ∀ (t : List ℚ) (acc : ℚ), acc = c →
    (∀ x ∈ t, x = c) → t.foldl min acc = c := by
  intro t
  induction t with
  | nil => intro acc hacc _; exact hacc
  | cons b t ih =>
    intro acc hacc hall
    have hb : b = c := hall b (List.mem_cons_self b t)
    have hmin : min acc b = c := by rw [hacc, hb, min_self]
    exact ih (min acc b) hmin (fun x hx => hall x (List.mem_cons_of_mem b hx))

theorem foldl_max_const (c : ℚ) : ∀ (t : List ℚ) (acc : ℚ), acc = c →
    (∀ x ∈ t, x = c) → t.foldl max acc = c := by
  intro t
  induction t with
  | nil => intro acc hacc _; exact hacc
  | cons b t ih =>
    intro acc hacc hall
    have hb : b = c := hall b (List.mem_cons_self b t)
    have hmax : max acc b = c := by rw [hacc, hb, max_self]
    exact ih (max acc b) hmax (fun x hx => hall x (List.mem_cons_of_mem b hx))

theorem colMin_all_eq {l : List ℚ} {c : ℚ} (hne : l ≠ []) (h : ∀ x ∈ l, x = c) :
    colMin l = c := by
  cases l with
  | nil => exact absurd rfl hne
  | cons a t =>
    exact foldl_min_const c t a (h a (List.mem_cons_self a t))
      (fun x hx => h x (List.mem_cons_of_mem a hx))

theorem colMax_all_eq {l : List ℚ} {c : ℚ} (hne : l ≠ []) (h : ∀ x ∈ l, x = c) :
    colMax l = c := by
  cases l with
  | nil => exact absurd rfl hne
  | cons a t =>
    exact foldl_max_const c t a (h a (List.mem_cons_self a t))
      (fun x hx => h x (List.mem_cons_of_mem a hx))

/-- C7: the min-max normalization primitive with equal lower and upper
bounds returns the defined fallback — 100 if the value is ≥ the bound,
else 0 — as a total function (no NaN and no runtime fault in the
embedding), and when all zones are tied on `pct_maisons` the housing
sub-score of `score_housing` equals 100 for every zone. -/
theorem c7_degenerate_normalization (zs : List Zone) (c : ℚ)
    (h : ∀ z ∈ zs, z.pct_maisons = c) :
    (∀ v b : ℚ, normalize_score v b b = if b ≤ v then 100 else 0) ∧
    (∀ z ∈ zs, housesSubScore zs z = 100) := by
  constructor
  · intro v b
    unfold normalize_score
    rw [if_pos rfl]
  · intro z hz
    have hne : zs.map (fun w => w.pct_maisons) ≠ [] := by
      intro he
      rw [List.map_eq_nil_iff] at he
      subst he
      cases hz
    have hall : ∀ x ∈ zs.map (fun w => w.pct_maisons), x = c := by
      intro x hx
      obtain ⟨w, hw, hwx⟩ := List.mem_map.mp hx
      rw [← hwx]
      exact h w hw
    have h1 : colMin (zs.map (fun w => w.pct_maisons)) = c := colMin_all_eq hne hall
    have h2 : colMax (zs.map (fun w => w.pct_maisons)) = c := colMax_all_eq hne hall
    have h3 : z.pct_maisons = c := h z hz
    unfold housesSubScore
    rw [h1, h2, h3]
    unfold normalize_score
    rw [if_pos rfl, if_pos le_rfl]

/-- Witness for C7 at a concrete singleton zone table tied on
`pct_maisons = 60`. -/
theorem c7_witness :
    (∀ v b : ℚ, normalize_score v b b = if b ≤ v then 100 else 0) ∧
    (∀ z ∈ [wZone], housesSubScore [wZone] z = 100) :=
  c7_degenerate_normalization [wZone] 60 (by decide)

theorem calculate_scores_length (m minH conv : ℚ) (lg : ℚ → ℚ) (zs : List Zone) :
    (calculate_scores m minH conv lg zs).length = zs.length := by
  unfold calculate_scores
  by_cases he : zs.isEmpty
  · rw [if_pos he]
    have hz : zs = [] := List.isEmpty_iff.mp he
    rw [hz]
    rfl
  · rw [if_neg he, setRanks_length]
    unfold sortValuesDesc
    rw [List.length_reverse, List.length_insertionSort, List.length_map]

theorem calculate_scores_ne_nil {m minH conv : ℚ} {lg : ℚ → ℚ} {zs : List Zone}
    (h : zs ≠ []) : calculate_scores m minH conv lg zs ≠ [] := by
  intro he
  apply h
  have hl := calculate_scores_length m minH conv lg zs
  rw [he] at hl
  exact List.length_eq_zero.mp hl.symm

/-- C8 (amended): when no communes pass the commune filter (in particular
on the empty input table) or no communes are assigned within the radius,
`create_zones` returns an empty table; the full `calculate_scores` method
then first re-runs `create_zones()` at the default radius (lines 220-221)
and returns an empty table exactly when that retry also produces no zones
— in particular it is empty whenever no communes pass the (radius-free)
commune filter.  All paths return tables, never a failure (totality of
the embedding). -/
theorem c8_empty_propagation {D : Type} [LinearOrder D] (dist : Commune → Commune → D)
    (r rDefault : D) (m minH conv : ℚ) (lg : ℚ → ℚ) (data : List Commune)
    (h : filter_eligible_communes data = [] ∨ communeAssignments dist data r = []) :
    create_zones dist data r = [] ∧
    (calculate_scores_method dist data rDefault (create_zones dist data r) m minH conv lg = []
      ↔ create_zones dist data rDefault = []) ∧
    (filter_eligible_communes data = [] →
      calculate_scores_method dist data rDefault (create_zones dist data r) m minH conv lg = []) := by
  have hasg : communeAssignments dist data r = [] := by
    rcases h with h | h
    · unfold communeAssignments
      rw [h]
      rfl
    · exact h
  have hcz : create_zones dist data r = [] := by
    unfold create_zones aggregate_zones aggregated_zones sortedZoneIds
    rw [hasg]
    rfl
  have hmethod : calculate_scores_method dist data rDefault (create_zones dist data r)
      m minH conv lg =
      calculate_scores m minH conv lg (create_zones dist data rDefault) := by
    unfold calculate_scores_method
    rw [hcz]
    rfl
  refine ⟨hcz, ?_, ?_⟩
  · rw [hmethod]
    constructor
    · intro he
      by_contra hne
      exact calculate_scores_ne_nil hne he
    · intro he
      rw [he]
      rfl
  · intro helig
    rw [hmethod]
    have h2 : communeAssignments dist data rDefault = [] := by
      unfold communeAssignments
      rw [helig]
      rfl
    have h3 : create_zones dist data rDefault = [] := by
      unfold create_zones aggregate_zones aggregated_zones sortedZoneIds
      rw [h2]
      rfl
    rw [h3]
    rfl

/-- Witness for C8 on the empty commune table, at a non-default radius 10
and the default retry radius 15. -/
theorem c8_witness :
    create_zones wDist ([] : List Commune) 10 = [] ∧
    (calculate_scores_method wDist [] 15 (create_zones wDist ([] : List Commune) 10)
        20000 100 (2 / 100) (fun x => x) = []
      ↔ create_zones wDist ([] : List Commune) 15 = []) ∧
    (filter_eligible_communes ([] : List Commune) = [] →
      calculate_scores_method wDist [] 15 (create_zones wDist ([] : List Commune) 10)
        20000 100 (2 / 100) (fun x => x) = []) :=
  c8_empty_propagation wDist 10 15 20000 100 (2 / 100) (fun x => x) [] (Or.inl rfl)

/-- Counterexample for C8 as originally stated: at the configured radius
−1 no commune is assigned within the radius and `create_zones` returns the
empty table, but `calculate_scores` does not return an empty table — it
re-runs `create_zones()` at the default radius 15 (zone_analyzer.py:
220-221), where a three-commune zone survives the zone filter, and returns
a non-empty scored table.  The empty result does not propagate. -/
theorem c8_retry_counterexample :
    communeAssignments cDist wData (-1) = [] ∧
    create_zones cDist wData (-1) = [] ∧
    calculate_scores_method cDist wData 15 (create_zones cDist wData (-1))
      20000 100 (2 / 100) (fun x => x) ≠ [] := by
  have h1 : communeAssignments cDist wData (-1) = [] := by decide
  have h2 : create_zones cDist wData (-1) = [] := by
    unfold create_zones aggregate_zones aggregated_zones sortedZoneIds
    rw [h1]
    rfl
  refine ⟨h1, h2, ?_⟩
  have hmethod : calculate_scores_method cDist wData 15 (create_zones cDist wData (-1))
      20000 100 (2 / 100) (fun x => x) =
      calculate_scores 20000 100 (2 / 100) (fun x => x) (create_zones cDist wData 15) := by
    unfold calculate_scores_method
    rw [h2]
    rfl
  rw [hmethod]
  apply calculate_scores_ne_nil
  have hids : sortedZoneIds (communeAssignments cDist wData 15) = [0, 1] := by decide
  have haggr : aggregated_zones (communeAssignments cDist wData 15) =
      [aggregateRow 0 (zoneMembers (communeAssignments cDist wData 15) 0),
       aggregateRow 1 (zoneMembers (communeAssignments cDist wData 15) 1)] := by
    unfold aggregated_zones
    rw [hids]
    rfl
  have hpct : ((zoneMembers (communeAssignments cDist wData 15) 0).map
      (fun a => a.commune)).map (fun c => c.pct_maisons) = [60, 60, 60] := by decide
  have hres : ((zoneMembers (communeAssignments cDist wData 15) 0).map
      (fun a => a.commune)).map (fun c => c.pct_residences_principales) =
      [80, 80, 80] := by decide
  have hrow_pct : (aggregateRow 0 (zoneMembers (communeAssignments cDist wData 15) 0)).pct_maisons = 60 := by
    show listMean (((zoneMembers (communeAssignments cDist wData 15) 0).map
      (fun a => a.commune)).map (fun c => c.pct_maisons)) = 60
    rw [hpct]
    norm_num [listMean]
  have hrow_res : (aggregateRow 0 (zoneMembers (communeAssignments cDist wData 15) 0)).pct_residences_principales = 80 := by
    show listMean (((zoneMembers (communeAssignments cDist wData 15) 0).map
      (fun a => a.commune)).map (fun c => c.pct_residences_principales)) = 80
    rw [hres]
    norm_num [listMean]
  have hrow_nb : (aggregateRow 0 (zoneMembers (communeAssignments cDist wData 15) 0)).nb_communes = 3 := by
    show (zoneMembers (communeAssignments cDist wData 15) 0).length = 3
    decide
  have hp0 : (fun z : Zone => decide (50 ≤ z.pct_maisons ∧
      70 ≤ z.pct_residences_principales ∧ 2 ≤ z.nb_communes))
      (aggregateRow 0 (zoneMembers (communeAssignments cDist wData 15) 0)) = true := by
    apply decide_eq_true
    refine ⟨?_, ?_, ?_⟩
    · rw [hrow_pct]
      norm_num
    · rw [hrow_res]
      norm_num
    · rw [hrow_nb]
      norm_num
  unfold create_zones aggregate_zones
  rw [haggr, List.filter_cons, if_pos hp0]
  exact List.cons_ne_nil _ _

/-- C9: `score_income` uses absolute bounds anchored to the national
benchmark: every scored zone of the full analyzer pipeline satisfies
`score_income = 0.7 × normalize(revenu_median, 0.8 × national_median,
1.5 × national_median) + 0.3 × normalize(−taux_pauvrete, −max-in-set,
−min-in-set)`, where the national median is the median of `revenu_median`
over the full original commune table (fixed at analyzer construction, not
recomputed from the filtered data). -/
theorem c9_income_national_benchmark {D : Type} [LinearOrder D]
    (dist : Commune → Commune → D) (data : List Commune) (r : D)
    (minH conv : ℚ) (lg : ℚ → ℚ) :
    (analyzer_scores dist data r minH conv lg).Forall (fun sz =>
      sz.score_income =
        0.7 * normalize_score sz.revenu_median
          (0.8 * listMedian (data.map (fun c => c.revenu_median)))
          (1.5 * listMedian (data.map (fun c => c.revenu_median))) +
        0.3 * normalize_score (-sz.taux_pauvrete)
          (-(colMax ((create_zones dist data r).map (fun w => w.taux_pauvrete))))
          (-(colMin ((create_zones dist data r).map (fun w => w.taux_pauvrete))))) := by
  rw [List.forall_iff_forall_mem]
  intro sz hsz
  unfold analyzer_scores at hsz
  obtain ⟨z, hz, he⟩ := mem_calculate_scores hsz
  have h2 : sz.score_income = score_income (national_median_income data)
      (create_zones dist data r) z := by rw [he]; rfl
  have h3 : sz.revenu_median = z.revenu_median := by rw [he]; rfl
  have h4 : sz.taux_pauvrete = z.taux_pauvrete := by rw [he]; rfl
  rw [h2, h3, h4]
  unfold score_income incomeSubScore povertyPenalty national_median_income
  rw [mul_comm (listMedian (data.map (fun c => c.revenu_median))) (0.8 : ℚ),
    mul_comm (listMedian (data.map (fun c => c.revenu_median))) (1.5 : ℚ)]
  ring

theorem filter_head?_eq_find? {α : Type} (p : α → Bool) :
    ∀ l : List α, (l.filter p).head? = l.find? p := by
  intro l
  induction l with
  | nil => rfl
  | cons a t ih =>
    by_cases h : p a = true
    · rw [List.filter_cons, if_pos h, List.find?_cons_of_pos t h]
      rfl
    · rw [List.filter_cons, if_neg h, List.find?_cons_of_neg t (by simpa using h)]
      exact ih

/-- C10: `get_zone_details` on a `zone_id` absent from the scored table
returns the empty dictionary (`none` in the embedding) rather than
raising, and on a present `zone_id` returns the first matching row
(`find?` semantics of filter-then-first). -/
theorem c10_get_zone_details (scored : List ScoredZone) (zid : ℕ) :
    get_zone_details scored zid = scored.find? (fun z => decide (z.zone_id = zid)) ∧
    (get_zone_details scored zid = none ↔ ∀ z ∈ scored, z.zone_id ≠ zid) ∧
    (∀ sz : ScoredZone, get_zone_details scored zid = some sz →
      sz.zone_id = zid ∧ sz ∈ scored) := by
  have hdef : get_zone_details scored zid =
      (scored.filter (fun z => decide (z.zone_id = zid))).head? := by
    unfold get_zone_details
    cases scored.filter (fun z => decide (z.zone_id = zid)) with
    | nil => rfl
    | cons a t => rfl
  refine ⟨?_, ?_, ?_⟩
  · rw [hdef]
    exact filter_head?_eq_find? _ scored
  · rw [hdef, List.head?_eq_none_iff, List.filter_eq_nil_iff]
    simp
  · intro sz hsz
    rw [hdef] at hsz
    have hmem : sz ∈ scored.filter (fun z => decide (z.zone_id = zid)) := by
      cases hf : scored.filter (fun z => decide (z.zone_id = zid)) with
      | nil => rw [hf] at hsz; exact absurd hsz (by simp)
      | cons a t =>
        rw [hf] at hsz
        have ha : a = sz := by simpa using hsz
        subst ha
        exact List.mem_cons_self _ _
    have h2 := List.mem_filter.mp hmem
    exact ⟨by simpa using h2.2, h2.1⟩

end ZA
